import Mathlib

/-!
# Pipelines-as-Code: authorization resolver, cancellation resolver, reconciler filter

A shallow embedding of

* `pkg/provider/gitlab/acl.go` (the GitLab authorization resolver),
* `pkg/reconciler/controller.go` (`checkStateAndEnqueue`, `ctrlOpts`),
* `cancelPipelineRuns`, exercised by `pkg/pipelineascode/cancel_pipelinerun_test.go`.

Conventions of the embedding.

* A Go call whose value is read only after `err == nil` is an `Except Error value`.  A Go
  call whose error the caller discards (`x, _ := f()`) keeps its pair shape
  `value × Option Error`: the caller reads the value whatever the error is.
* A Go pointer that the remote answer may leave nil is an `Option`; a run-time panic is an
  `Except.error` carrying the kind of panic (or `none` where only a failed type assertion
  can occur).
* Remote reads are oracles carried by the provider; every function returns, next to its
  result, the ordered list of calls it made, so that "no call was made" and "the call
  was made with this argument" are statements about data.
-/

set_option autoImplicit false
set_option linter.dupNamespace false

namespace PAC

/-- Go `error` values, identified with their message. -/
abbrev Error := String

/-! ## `info.Event` (the fields the sources under study read or write) -/

/-- `info.State`: operator intent carried by an event. -/
structure State where
  CancelPipelineRuns : Bool
  TargetCancelPipelineRun : String
deriving DecidableEq, Repr

/-- `info.Event`, restricted to the fields that `acl.go` and the cancellation test name.
The payload field `Event` is an `interface{}` in Go and is only ever copied. -/
structure Event where
  Event : String
  Sender : String
  BaseBranch : String
  HeadBranch : String
  Repository : String
  Organization : String
  DefaultBranch : String
  SHA : String
  TriggerTarget : String
  PullRequestNumber : Int
  State : State
deriving DecidableEq, Repr

/-! ## Label keys (`pkg/apis/pipelinesascode/keys`) -/

/-- The label keys of package `keys`.  The package is not part of the sources under
study, so the keys are a parameter of every definition that reads them. -/
structure Keys where
  State : String
  URLRepository : String
  SHA : String
  PullRequest : String
  OriginalPRName : String
deriving DecidableEq, Repr

/-- A concrete choice of keys.  The state key is the one spelled out in the comment above
`checkStateAndEnqueue`; the other four follow the same prefix. -/
def pacKeys : Keys :=
  { State := "pipelinesascode.tekton.dev/state"
    URLRepository := "pipelinesascode.tekton.dev/url-repository"
    SHA := "pipelinesascode.tekton.dev/sha"
    PullRequest := "pipelinesascode.tekton.dev/pull-request"
    OriginalPRName := "pipelinesascode.tekton.dev/original-prname" }

/-! ## Kubernetes objects -/

/-- A Go `map[string]string` of labels; `none` is the nil map.  Reading a key from the
nil map yields "absent", as in Go. -/
abbrev Labels := Option (List (String × String))

/-- The Go two-valued map read `v, exist := m[k]`. -/
def Labels.get (m : Labels) (k : String) : Option String :=
  match m with
  | none => none
  | some kvs => kvs.lookup k

/-- `metav1.ObjectMeta`: name, namespace and labels. -/
structure ObjectMeta where
  Name : String
  Namespace : String
  Labels : Labels
deriving DecidableEq, Repr

/-- `types.NamespacedName`. -/
structure NamespacedName where
  Namespace : String
  Name : String
deriving DecidableEq, Repr

/-- `corev1.ConditionStatus`. -/
inductive ConditionStatus
  | True
  | False
  | Unknown
deriving DecidableEq, Repr

/-- `apis.Condition`: a typed condition with a status (`CondType` is the Go field
`Type`, a reserved word here). -/
structure Condition where
  CondType : String
  Status : ConditionStatus
deriving DecidableEq, Repr

/-- `apis.ConditionSucceeded`. -/
def ConditionSucceeded : String := "Succeeded"

/-- `pipelinev1beta1.PipelineRunSpecStatusStoppedRunFinally`. -/
def PipelineRunSpecStatusStoppedRunFinally : String := "StoppedRunFinally"

/-- `pipelinev1beta1.PipelineRunSpecStatusCancelledRunFinally`. -/
def PipelineRunSpecStatusCancelledRunFinally : String := "CancelledRunFinally"

/-- `pipelinev1beta1.PipelineRunSpec`, reduced to its `Status` field. -/
structure PipelineRunSpec where
  Status : String
deriving DecidableEq, Repr

/-- `pipelinev1beta1.PipelineRunStatus`, reduced to its conditions. -/
structure PipelineRunStatus where
  Conditions : List Condition
deriving DecidableEq, Repr

/-- `pipelinev1beta1.PipelineRun`: the execution record. -/
structure PipelineRun where
  ObjectMeta : ObjectMeta
  Spec : PipelineRunSpec
  Status : PipelineRunStatus
deriving DecidableEq, Repr

/-- `v1alpha1.Repository`: a namespaced registration of a source-control URL. -/
structure Repository where
  Name : String
  Namespace : String
  URL : String
deriving DecidableEq, Repr


/-! ## GitLab provider: `pkg/provider/gitlab/acl.go` -/

namespace Gitlab

/-- The two run-time panics `acl.go` can raise. -/
inductive Panic
  | nilDereference
  | indexOutOfRange
deriving DecidableEq, Repr

/-- `gitlab.ProjectMember`, reduced to the field `acl.go` reads. -/
structure ProjectMember where
  ID : Int
deriving DecidableEq, Repr

/-- The `Author` of a `gitlab.Note` (a struct value, not a pointer). -/
structure Author where
  ID : Int
  Username : String
deriving DecidableEq, Repr

/-- `gitlab.Note`. -/
structure Note where
  Body : String
  Author : Author
deriving DecidableEq, Repr

/-- `gitlab.Discussion`: a thread.  `Notes` is a `[]*Note`: an ordered list of pointers,
each of which may be nil (`none`). -/
structure Discussion where
  Notes : List (Option Note)
deriving DecidableEq, Repr

/-- `*gitlab.Client`, reduced to the two service calls `acl.go` makes.  For both, the source
reads the value only after `err == nil`, so the answer is a value or an error; the member
handed back with a nil error is the one the library allocates before decoding.  The
listing is a `[]*Discussion`: its elements are pointers decoded from the remote answer and
may be nil. -/
structure Client where
  GetInheritedProjectMember : Int → Int → Except Error ProjectMember
  ListMergeRequestDiscussions : Int → Int → Except Error (List (Option Discussion))

/-- The GitLab `Provider`.  `Client` is a pointer and may be nil (`none`).  The method
`getObject` lives outside `acl.go`; it is carried as a field, a parameter of the model,
with its Go result `([]byte, error)`: content and error, both always present. -/
structure Provider where
  Client : Option Client
  targetProjectID : Int
  mergeRequestID : Int
  userID : Int
  getObject : String → String → Int → String × Option Error

/-- Package `acl`, which `acl.go` calls and which is not among the sources under study:
the owner-file parser (Go result `(bool, error)`), the regular-expression matcher and the
ok-to-test pattern are parameters of the model. -/
structure Acl where
  UserInOwnerFile : String → String → Bool × Option Error
  MatchRegexp : String → String → Bool
  OKToTestCommentRegexp : String

/-- One observable call made by the resolver. -/
inductive Call
  | GetInheritedProjectMember (pid : Int) (userid : Int)
  | getObject (fname : String) (branch : String) (pid : Int)
  | UserInOwnerFile (ownerContent : String) (sender : String)
  | ListMergeRequestDiscussions (pid : Int) (mrid : Int)
deriving DecidableEq, Repr

/-- The message of the configuration error `IsAllowed` builds with `fmt.Errorf`. -/
def noClientError : Error :=
  "no github client has been initiliazed, exiting... (hint: did you forget setting a secret on your repo?)"

/-- `Provider.isAllowedFromOwnerFile`: fetch `OWNERS` from the default branch and keep the
content, dropping the error (`ownerContent, _ :=`); empty content denies; otherwise the
boolean of the owner-file parser for `event.Sender`, its error dropped as well
(`allowed, _ :=`).  Returns the boolean and the calls made. -/
def isAllowedFromOwnerFile (acl : Acl) (v : Provider) (event : Event) : Bool × List Call :=
  let ownerContent : String := (v.getObject "OWNERS" event.DefaultBranch v.targetProjectID).1
  if ownerContent = "" then
    (false, [Call.getObject "OWNERS" event.DefaultBranch v.targetProjectID])
  else
    let allowed : Bool := (acl.UserInOwnerFile ownerContent event.Sender).1
    (allowed, [Call.getObject "OWNERS" event.DefaultBranch v.targetProjectID,
               Call.UserInOwnerFile ownerContent event.Sender])

/-- `Provider.checkMembership`: the inherited-membership lookup for `userid`; on an error or
a member with another ID, fall back to the owner file.  Dereferencing a nil client panics. -/
def checkMembership (acl : Acl) (v : Provider) (event : Event) (userid : Int) :
    Except Panic Bool × List Call :=
  match v.Client with
  | none => (.error Panic.nilDereference, [])
  | some client =>
    let isMember : Bool :=
      match client.GetInheritedProjectMember v.targetProjectID userid with
      | .ok member => decide (member.ID = userid)
      | .error _ => false
    if isMember then
      (.ok true, [Call.GetInheritedProjectMember v.targetProjectID userid])
    else
      let r := isAllowedFromOwnerFile acl v event
      (.ok r.1, Call.GetInheritedProjectMember v.targetProjectID userid :: r.2)

/-- The event built for a commenter inside the scan: seven fields are copied or set, every
other field keeps its zero value. -/
def commenterEvent (event : Event) (author : Author) : Event :=
  { Event := event.Event
    Sender := author.Username
    BaseBranch := event.BaseBranch
    HeadBranch := event.HeadBranch
    Repository := event.Repository
    Organization := event.Organization
    DefaultBranch := event.DefaultBranch
    SHA := ""
    TriggerTarget := ""
    PullRequestNumber := 0
    State := { CancelPipelineRuns := false, TargetCancelPipelineRun := "" } }

/-- The `for _, comment := range discussions` loop of
`checkOkToTestCommentFromApprovedMember`.  Reading `comment.Notes` of a nil thread is a nil
dereference; `comment.Notes[0]` on an empty note list is an index out of range; reading
`topthread.Body` of a nil first note is a nil dereference. -/
def scanDiscussions (acl : Acl) (v : Provider) (event : Event) :
    List (Option Discussion) → Except Panic (Bool × Option Error) × List Call
  | [] => (.ok (false, none), [])
  | none :: _ => (.error Panic.nilDereference, [])
  | some comment :: rest =>
    match comment.Notes with
    | [] => (.error Panic.indexOutOfRange, [])
    | none :: _ => (.error Panic.nilDereference, [])
    | some topthread :: _ =>
      if acl.MatchRegexp acl.OKToTestCommentRegexp topthread.Body then
        match checkMembership acl v (commenterEvent event topthread.Author) topthread.Author.ID with
        | (.error p, calls) => (.error p, calls)
        | (.ok true, calls) => (.ok (true, none), calls)
        | (.ok false, calls) =>
          let r := scanDiscussions acl v event rest
          (r.1, calls ++ r.2)
      else
        scanDiscussions acl v event rest

/-- `Provider.checkOkToTestCommentFromApprovedMember`: list the merge-request discussions;
a listing error is returned as `(false, err)`; otherwise scan the threads. -/
def checkOkToTestCommentFromApprovedMember (acl : Acl) (v : Provider) (event : Event) :
    Except Panic (Bool × Option Error) × List Call :=
  match v.Client with
  | none => (.error Panic.nilDereference, [])
  | some client =>
    match client.ListMergeRequestDiscussions v.targetProjectID v.mergeRequestID with
    | .error err =>
      (.ok (false, some err), [Call.ListMergeRequestDiscussions v.targetProjectID v.mergeRequestID])
    | .ok discussions =>
      let r := scanDiscussions acl v event discussions
      (r.1, Call.ListMergeRequestDiscussions v.targetProjectID v.mergeRequestID :: r.2)

/-- `Provider.IsAllowed`: a nil client is a configuration error; otherwise the membership
check for the provider user, then the ok-to-test comment scan. -/
def IsAllowed (acl : Acl) (v : Provider) (event : Event) :
    Except Panic (Bool × Option Error) × List Call :=
  if v.Client.isNone then
    (.ok (false, some noClientError), [])
  else
    match checkMembership acl v event v.userID with
    | (.error p, calls) => (.error p, calls)
    | (.ok true, calls) => (.ok (true, none), calls)
    | (.ok false, calls) =>
      let r := checkOkToTestCommentFromApprovedMember acl v event
      (r.1, calls ++ r.2)

/-- The access rule in the words of the specification: user `(id, username)` is allowed when
the inherited-membership lookup for `id` succeeds with a member whose ID is `id`, or when
the `OWNERS` file of the default branch is non-empty and lists `username`. -/
def specAllowed (acl : Acl) (v : Provider) (client : Client) (event : Event)
    (id : Int) (username : String) : Prop :=
  (∃ member, client.GetInheritedProjectMember v.targetProjectID id = .ok member ∧ member.ID = id) ∨
  ((v.getObject "OWNERS" event.DefaultBranch v.targetProjectID).1 ≠ "" ∧
    (acl.UserInOwnerFile (v.getObject "OWNERS" event.DefaultBranch v.targetProjectID).1
      username).1 = true)

/-- A listed thread has at least one note: it is a thread and its note list is not empty.
Nothing is said about the note itself. -/
def hasNote (t : Option Discussion) : Prop :=
  ∃ d, t = some d ∧ d.Notes ≠ []

/-- A listed thread has a first note that can be read: it is a thread and its note list
starts with a note that is not nil. -/
def hasFirstNote (t : Option Discussion) : Prop :=
  ∃ d first rest, t = some d ∧ d.Notes = some first :: rest

/-- The first note of a listed thread, when there is one to read. -/
def topNote (t : Option Discussion) : Option Note :=
  match t with
  | none => none
  | some d =>
    match d.Notes with
    | some first :: _ => some first
    | _ => none

/-- A thread grants access, in the words of the specification: its first note matches the
ok-to-test marker and the author of that note is allowed. -/
def specThreadGrants (acl : Acl) (v : Provider) (client : Client) (event : Event)
    (t : Option Discussion) : Prop :=
  ∃ first, topNote t = some first ∧
    acl.MatchRegexp acl.OKToTestCommentRegexp first.Body = true ∧
    specAllowed acl v client event first.Author.ID first.Author.Username

end Gitlab

/-! ## Reconciler: `pkg/reconciler/controller.go` -/

namespace Reconciler

/-- The dynamic values (`interface{}`) an informer hands to its handlers: a pipeline run,
an object of another kind that still carries metadata (a `kmeta.Accessor` such as a task
run), a deletion tombstone (`cache.DeletedFinalStateUnknown`) around another value, or a
value without metadata. -/
inductive Obj
  | pipelineRun (pr : PipelineRun)
  | accessor (kind : String) (objectMeta : ObjectMeta)
  | tombstone (inner : Obj)
  | other (descr : String)
deriving DecidableEq, Repr

/-- `controller.Impl`, reduced to the sequence of keys handed to `EnqueueKey`. -/
structure Impl where
  enqueued : List NamespacedName
deriving DecidableEq, Repr

/-- `impl.EnqueueKey(key)`. -/
def Impl.EnqueueKey (impl : Impl) (key : NamespacedName) : Impl :=
  { enqueued := impl.enqueued ++ [key] }

/-- `kmeta.DeletionHandlingAccessor` as the knative library documents it: the metadata of
any object that carries metadata, looking through one tombstone, an error for anything
else.  The handler below takes the accessor as a parameter; this instance is used to run
it. -/
def kmetaAccessor : Obj → Except Error ObjectMeta
  | .pipelineRun pr => .ok pr.ObjectMeta
  | .accessor _ objectMeta => .ok objectMeta
  | .tombstone (.pipelineRun pr) => .ok pr.ObjectMeta
  | .tombstone (.accessor _ objectMeta) => .ok objectMeta
  | .tombstone _ => .error "the object that Tombstone contained is not of kmeta.Accessor"
  | .other _ => .error "could not get Accessor from tombstone"

/-- The handler returned by `checkStateAndEnqueue(impl)`: when the accessor succeeds and
the labels of the object hold the state key, enqueue its namespaced name. -/
def checkStateAndEnqueue (keys : Keys) (DeletionHandlingAccessor : Obj → Except Error ObjectMeta)
    (impl : Impl) (obj : Obj) : Impl :=
  match DeletionHandlingAccessor obj with
  | .ok object =>
    match object.Labels.get keys.State with
    | some _ => impl.EnqueueKey { Namespace := object.Namespace, Name := object.Name }
    | none => impl
  | .error _ => impl

/-- The `PromoteFilterFunc` of `ctrlOpts()`: `obj.(*v1beta1.PipelineRun)` panics on any
other dynamic type; on a pipeline run it reports whether the state key is present. -/
def PromoteFilterFunc (keys : Keys) (obj : Obj) : Option Bool :=
  match obj with
  | .pipelineRun pr =>
    match pr.ObjectMeta.Labels.get keys.State with
    | some _ => some true
    | none => some false
  | _ => none

/-- The labels hold key `k`: the map is not nil and some entry has key `k`. -/
def hasLabelKey (m : Labels) (k : String) : Prop :=
  ∃ kvs value, m = some kvs ∧ (k, value) ∈ kvs

end Reconciler

/-! ## Cancellation resolver: `cancelPipelineRuns` -/

namespace PipelineAsCode

/-- How the two free-text label values of the selector are derived from the event and the
repository.  The specification names `repo.URL` and `event.SHA`; the test fixture labels
its records with the event's repository and SHA passed through
`formatting.K8LabelsCleanup`.  Both are instances, and nothing below depends on the
choice. -/
structure LabelValues where
  URLRepository : Event → Repository → String
  SHA : Event → String

/-- Label values as the specification words them. -/
def specLabelValues : LabelValues :=
  { URLRepository := fun _ repo => repo.URL
    SHA := fun event => event.SHA }

/-- Label values as the test fixture builds them (the names used there need no clean-up). -/
def fixtureLabelValues : LabelValues :=
  { URLRepository := fun event _ => event.Repository
    SHA := fun event => event.SHA }

/-- Modelled from the spec: the body of `cancelPipelineRuns` is absent (only its test is
present).  Step 1 and 2 of the algorithm: the label selector is equality on the
repository-URL, SHA and pull-request-number keys, and on the original-name key as well
when the event names an explicit target. -/
def labelSelector (keys : Keys) (lv : LabelValues) (event : Event) (repo : Repository) :
    List (String × String) :=
  [ (keys.URLRepository, lv.URLRepository event repo),
    (keys.SHA, lv.SHA event),
    (keys.PullRequest, toString event.PullRequestNumber) ] ++
  (if event.State.TargetCancelPipelineRun ≠ "" then
    [(keys.OriginalPRName, event.State.TargetCancelPipelineRun)]
  else [])

/-- Modelled from the spec: a record matches a selector when, for every required pair,
its labels hold that key with that value. -/
def matchesSelector (selector : List (String × String)) (pr : PipelineRun) : Bool :=
  selector.all (fun kv => decide (pr.ObjectMeta.Labels.get kv.1 = some kv.2))

/-- Modelled from the spec: a record is terminal when its conditions show a "succeeded"
condition that is true or false. -/
def IsDone (pr : PipelineRun) : Bool :=
  pr.Status.Conditions.any (fun c =>
    decide (c.CondType = ConditionSucceeded) &&
      (decide (c.Status = ConditionStatus.True) || decide (c.Status = ConditionStatus.False)))

/-- Modelled from the spec: step 4, the records that are skipped: terminal ones and those
whose `spec.status` is already `StoppedRunFinally` or `CancelledRunFinally`. -/
def skipped (pr : PipelineRun) : Bool :=
  IsDone pr ||
    decide (pr.Spec.Status = PipelineRunSpecStatusStoppedRunFinally) ||
    decide (pr.Spec.Status = PipelineRunSpecStatusCancelledRunFinally)

/-- The mutation of step 4: `spec.status = CancelledRunFinally`, nothing else. -/
def cancelled (pr : PipelineRun) : PipelineRun :=
  { pr with Spec := { Status := PipelineRunSpecStatusCancelledRunFinally } }

/-- Modelled from the spec: steps 3 to 5 over the existing records.  Each record that
matches the selector and is not skipped is mutated and persisted; `update` is the store,
which may refuse an update with an error; the first such error is returned at once and
the records mutated before it stay mutated. -/
def cancelMatching (update : PipelineRun → Option Error) (selector : List (String × String)) :
    List PipelineRun → List PipelineRun × Option Error
  | [] => ([], none)
  | pr :: rest =>
    if matchesSelector selector pr && !skipped pr then
      match update (cancelled pr) with
      | some err => (pr :: rest, some err)
      | none =>
        let r := cancelMatching update selector rest
        (cancelled pr :: r.1, r.2)
    else
      let r := cancelMatching update selector rest
      (pr :: r.1, r.2)

/-- Modelled from the spec: `cancelPipelineRuns` (section 4.3).  It acts only on a
`pull_request` event with `CancelPipelineRuns` set and is otherwise a successful no-op.
The result is the record store after the call and the error returned. -/
def cancelPipelineRuns (keys : Keys) (lv : LabelValues) (update : PipelineRun → Option Error)
    (event : Event) (repo : Repository) (store : List PipelineRun) :
    List PipelineRun × Option Error :=
  if event.TriggerTarget = "pull_request" ∧ event.State.CancelPipelineRuns = true then
    cancelMatching update (labelSelector keys lv event repo) store
  else
    (store, none)

end PipelineAsCode

/-! ## Concrete providers, events and records used to run the definitions -/

namespace Gitlab

/-- A stand-in for package `acl`: an owner file lists exactly the user it spells, the
content `"%"` does not parse, and a body matches when it is the marker itself. -/
def fixtureAcl : Acl :=
  { UserInOwnerFile := fun content sender =>
      if content = "%" then (false, some "cannot unmarshal")
      else (decide (content = sender), none)
    MatchRegexp := fun re body => decide (body = re)
    OKToTestCommentRegexp := "/ok-to-test" }

/-- A stand-in for package `acl` whose owner-file parser reports an error next to the
entries it could read. -/
def tolerantAcl : Acl :=
  { UserInOwnerFile := fun content sender => (decide (content = sender), some "trailing data")
    MatchRegexp := fun re body => decide (body = re)
    OKToTestCommentRegexp := "/ok-to-test" }

/-- A client in which only user 1 is a project member and the listing answers `listing`. -/
def fixtureClient (listing : Except Error (List (Option Discussion))) : Client :=
  { GetInheritedProjectMember := fun _ userid =>
      if userid = 1 then .ok { ID := 1 } else .error "404 Not Found"
    ListMergeRequestDiscussions := fun _ _ => listing }

/-- A provider for project 10, merge request 3, acting for user `userID`, whose `OWNERS`
fetch answers `owners`. -/
def fixtureProvider (client : Option Client) (owners : String × Option Error) (userID : Int) :
    Provider :=
  { Client := client
    targetProjectID := 10
    mergeRequestID := 3
    userID := userID
    getObject := fun _ _ _ => owners }

/-- A merge-request event sent by `sender`. -/
def fixtureEvent (sender : String) : Event :=
  { Event := "merge_request"
    Sender := sender
    BaseBranch := "main"
    HeadBranch := "feature"
    Repository := "foo"
    Organization := "fooorg"
    DefaultBranch := "main"
    SHA := "foosha"
    TriggerTarget := "pull_request"
    PullRequestNumber := 11
    State := { CancelPipelineRuns := false, TargetCancelPipelineRun := "" } }

/-- A note. -/
def fixtureNote (body : String) (id : Int) (username : String) : Note :=
  { Body := body, Author := { ID := id, Username := username } }

/-- Two threads: an ok-to-test from the outsider mallory, then an ok-to-test from the
owner alice followed by a reply. -/
def fixtureThreads : List (Option Discussion) :=
  [ some { Notes := [some (fixtureNote "/ok-to-test" 7 "mallory")] },
    some { Notes := [some (fixtureNote "/ok-to-test" 2 "alice"),
                     some (fixtureNote "thanks" 7 "mallory")] } ]

/-- A listing of one thread without any note. -/
def emptyThread : List (Option Discussion) := [some { Notes := [] }]

/-- A listing of one thread whose only note is nil. -/
def nilNoteThread : List (Option Discussion) := [some { Notes := [none] }]

/-- The provider of a given client with the listing replaced by `ds`; every other remote
answer is unchanged. -/
def withDiscussions (v : Provider) (client : Client) (ds : List (Option Discussion)) :
    Provider :=
  { v with Client := some { client with ListMergeRequestDiscussions := fun _ _ => .ok ds } }

end Gitlab

namespace PipelineAsCode

/-- The match key of the specification: the record carries the repository-URL, SHA and
pull-request-number labels of the event. -/
def matchesEvent (keys : Keys) (lv : LabelValues) (event : Event) (repo : Repository)
    (pr : PipelineRun) : Prop :=
  pr.ObjectMeta.Labels.get keys.URLRepository = some (lv.URLRepository event repo) ∧
  pr.ObjectMeta.Labels.get keys.SHA = some (lv.SHA event) ∧
  pr.ObjectMeta.Labels.get keys.PullRequest = some (toString event.PullRequestNumber)

/-- The repository `fooRepo` of the test. -/
def fooRepo : Repository :=
  { Namespace := "foo", Name := "foo", URL := "https://github.com/fooorg/foo" }

/-- The map `fooRepoLabels` of the test. -/
def fooRepoLabels : Labels :=
  some [ (pacKeys.URLRepository, "foo"), (pacKeys.SHA, "foosha"), (pacKeys.PullRequest, "11") ]

/-- The map `fooRepoLabelsPrFooAbc` of the test. -/
def fooRepoLabelsPrFooAbc : Labels :=
  some [ (pacKeys.URLRepository, "foo"), (pacKeys.SHA, "foosha"), (pacKeys.PullRequest, "11"),
         (pacKeys.OriginalPRName, "pr-foo-abc") ]

/-- A record of namespace `foo` as the test builds them. -/
def fooRun (name : String) (labels : Labels) (specStatus : String)
    (conditions : List Condition) : PipelineRun :=
  { ObjectMeta := { Name := name, Namespace := "foo", Labels := labels }
    Spec := { Status := specStatus }
    Status := { Conditions := conditions } }

/-- The pull-request event of the test, with the given cancellation target. -/
def cancelEvent (target : String) : Event :=
  { Event := ""
    Sender := ""
    BaseBranch := ""
    HeadBranch := ""
    Repository := "foo"
    Organization := ""
    DefaultBranch := ""
    SHA := "foosha"
    TriggerTarget := "pull_request"
    PullRequestNumber := 11
    State := { CancelPipelineRuns := true, TargetCancelPipelineRun := target } }

/-- The records of the test case "cancel a specific run". -/
def specificRunStore : List PipelineRun :=
  [ fooRun "pr-foo" fooRepoLabels "" [],
    fooRun "pr-foo-abc-123" fooRepoLabelsPrFooAbc "" [],
    fooRun "pr-foo-pqr" fooRepoLabels "" [] ]

/-- A running record next to the two records of the test case "cancelling a done
pipelinerun or already cancelled pipelinerun". -/
def mixedStore : List PipelineRun :=
  [ fooRun "pr-foo-running" fooRepoLabels "" [],
    fooRun "pr-foo" fooRepoLabels ""
      [{ CondType := ConditionSucceeded, Status := ConditionStatus.True }],
    fooRun "pr-foo-1" fooRepoLabels PipelineRunSpecStatusStoppedRunFinally [] ]

/-- A store that accepts every update. -/
def acceptAll : PipelineRun → Option Error := fun _ => none

end PipelineAsCode

namespace Reconciler

/-- A pipeline run in the `queued` state. -/
def queuedRun : PipelineRun :=
  { ObjectMeta := { Name := "pr-queued", Namespace := "foo",
                    Labels := some [(pacKeys.State, "queued")] }
    Spec := { Status := "" }
    Status := { Conditions := [] } }

/-- A pipeline run without labels (nil map). -/
def unlabelledRun : PipelineRun :=
  { ObjectMeta := { Name := "pr-plain", Namespace := "foo", Labels := none }
    Spec := { Status := "" }
    Status := { Conditions := [] } }

end Reconciler

/-! ## Facts about the GitLab resolver -/

namespace Gitlab

/-- The owner-file path grants exactly when the fetched content is non-empty and the
boolean of the parser is `true` for the sender, whatever errors came with them. -/
theorem isAllowedFromOwnerFile_eq_true_iff (acl : Acl) (v : Provider) (event : Event) :
    (isAllowedFromOwnerFile acl v event).1 = true ↔
      ((v.getObject "OWNERS" event.DefaultBranch v.targetProjectID).1 ≠ "" ∧
        (acl.UserInOwnerFile (v.getObject "OWNERS" event.DefaultBranch v.targetProjectID).1
          event.Sender).1 = true) := by
  unfold isAllowedFromOwnerFile
  by_cases hc : (v.getObject "OWNERS" event.DefaultBranch v.targetProjectID).1 = ""
  · simp [hc]
  · simp [hc]

/-- With a client, `checkMembership` returns (it does not panic) and its boolean is the
access rule of the specification for `(userid, event.Sender)`. -/
theorem checkMembership_spec (acl : Acl) (v : Provider) (client : Client) (event : Event)
    (userid : Int) (hc : v.Client = some client) :
    ∃ b, (checkMembership acl v event userid).1 = .ok b ∧
      (b = true ↔ specAllowed acl v client event userid event.Sender) := by
  unfold checkMembership specAllowed
  rw [hc]
  cases hm : client.GetInheritedProjectMember v.targetProjectID userid with
  | error e =>
    refine ⟨(isAllowedFromOwnerFile acl v event).1, by simp [hm], ?_⟩
    rw [isAllowedFromOwnerFile_eq_true_iff]
    simp
  | ok member =>
    by_cases hid : member.ID = userid
    · exact ⟨true, by simp [hm, hid], by simp [hid]⟩
    · refine ⟨(isAllowedFromOwnerFile acl v event).1, by simp [hm, hid], ?_⟩
      rw [isAllowedFromOwnerFile_eq_true_iff]
      simp [hid]

/-- The access rule reads only the default branch of the event. -/
theorem specAllowed_commenterEvent (acl : Acl) (v : Provider) (client : Client) (event : Event)
    (author : Author) (id : Int) (username : String) :
    specAllowed acl v client (commenterEvent event author) id username ↔
      specAllowed acl v client event id username := by
  simp [specAllowed, commenterEvent]

/-- A listed thread has a first note to read exactly when `topNote` finds one. -/
theorem hasFirstNote_iff_topNote (t : Option Discussion) :
    hasFirstNote t ↔ ∃ first, topNote t = some first := by
  unfold hasFirstNote topNote
  cases t with
  | none => simp
  | some d =>
    cases hn : d.Notes with
    | nil => simp [hn]
    | cons o rest =>
      cases o with
      | none => simp [hn]
      | some first => simp [hn]

/-- With a client and threads that all have a first note to read, the scan returns
`(b, nil)` and `b` says whether some thread grants access. -/
theorem scanDiscussions_spec (acl : Acl) (v : Provider) (client : Client) (event : Event)
    (hc : v.Client = some client) (ds : List (Option Discussion))
    (hne : ∀ t ∈ ds, hasFirstNote t) :
    ∃ b, (scanDiscussions acl v event ds).1 = .ok (b, none) ∧
      (b = true ↔ ∃ t ∈ ds, specThreadGrants acl v client event t) := by
  induction ds with
  | nil => exact ⟨false, rfl, by simp⟩
  | cons t rest ih =>
    obtain ⟨b, hb, hiff⟩ := ih (fun x hx => hne x (List.mem_cons_of_mem _ hx))
    obtain ⟨d, first, more, ht, hn⟩ := hne t (List.mem_cons_self _ _)
    subst ht
    have htop : topNote (some d) = some first := by simp [topNote, hn]
    have htail : (∃ x ∈ rest, specThreadGrants acl v client event x) →
        ∃ x ∈ some d :: rest, specThreadGrants acl v client event x :=
      fun ⟨x, hx, hg⟩ => ⟨x, List.mem_cons_of_mem _ hx, hg⟩
    by_cases hmatch : acl.MatchRegexp acl.OKToTestCommentRegexp first.Body = true
    · obtain ⟨a, ha, haiff⟩ := checkMembership_spec acl v client
        (commenterEvent event first.Author) first.Author.ID hc
      rw [specAllowed_commenterEvent] at haiff
      have hsender : (commenterEvent event first.Author).Sender = first.Author.Username := rfl
      rw [hsender] at haiff
      cases hres : checkMembership acl v (commenterEvent event first.Author) first.Author.ID with
      | mk r calls =>
        rw [hres] at ha
        simp only at ha
        subst ha
        cases a with
        | true =>
          refine ⟨true, ?_, ?_⟩
          · simp [scanDiscussions, hn, hmatch, hres]
          · simp only [true_iff]
            exact ⟨some d, List.mem_cons_self _ _, first, htop, hmatch, haiff.mp rfl⟩
        | false =>
          refine ⟨b, ?_, ?_⟩
          · simp [scanDiscussions, hn, hmatch, hres, hb]
          · rw [hiff]
            refine ⟨htail, ?_⟩
            rintro ⟨x, hx, hg⟩
            rcases List.mem_cons.mp hx with rfl | hx
            · obtain ⟨f, hf, _, hallowed⟩ := hg
              rw [htop] at hf
              cases hf
              exact absurd (haiff.mpr hallowed) (by simp)
            · exact ⟨x, hx, hg⟩
    · refine ⟨b, ?_, ?_⟩
      · simp [scanDiscussions, hn, hmatch, hb]
      · rw [hiff]
        refine ⟨htail, ?_⟩
        rintro ⟨x, hx, hg⟩
        rcases List.mem_cons.mp hx with rfl | hx
        · obtain ⟨f, hf, hm, _⟩ := hg
          rw [htop] at hf
          cases hf
          exact absurd hm hmatch
        · exact ⟨x, hx, hg⟩

/-- The first notes of the threads decide whether some thread grants access. -/
theorem exists_specThreadGrants_congr (acl : Acl) (v : Provider) (client : Client) (event : Event)
    (ds ds2 : List (Option Discussion))
    (h : ds2.map topNote = ds.map topNote) :
    (∃ t ∈ ds2, specThreadGrants acl v client event t) ↔
      (∃ t ∈ ds, specThreadGrants acl v client event t) := by
  have key : ∀ l : List (Option Discussion),
      (∃ t ∈ l, specThreadGrants acl v client event t) ↔
      ∃ o ∈ l.map topNote, ∃ first, o = some first ∧
        acl.MatchRegexp acl.OKToTestCommentRegexp first.Body = true ∧
        specAllowed acl v client event first.Author.ID first.Author.Username := by
    intro l
    constructor
    · rintro ⟨t, ht, first, hf, hm, ha⟩
      exact ⟨topNote t, List.mem_map.mpr ⟨t, ht, rfl⟩, first, hf, hm, ha⟩
    · rintro ⟨o, ho, first, hof, hm, ha⟩
      obtain ⟨t, ht, rfl⟩ := List.mem_map.mp ho
      exact ⟨t, ht, first, hof, hm, ha⟩
  rw [key, key, h]

end Gitlab

namespace Gitlab

/-- Claim C1 fails as stated: the client is set, the listing succeeds and its only thread
has one note, but that note is nil; the actor is denied, the scan reads `topthread.Body`
of the nil note and `IsAllowed` panics instead of returning `(b, nil)`. -/
theorem C1_counterexample :
    (fixtureProvider (some (fixtureClient (.ok nilNoteThread))) ("alice", none) 7).Client
      = some (fixtureClient (.ok nilNoteThread)) ∧
    (fixtureClient (.ok nilNoteThread)).ListMergeRequestDiscussions 10 3 = .ok nilNoteThread ∧
    (∀ t ∈ nilNoteThread, hasNote t) ∧
    (IsAllowed fixtureAcl (fixtureProvider (some (fixtureClient (.ok nilNoteThread)))
        ("alice", none) 7) (fixtureEvent "mallory")).1 = .error Panic.nilDereference ∧
    ¬ ∃ b, (IsAllowed fixtureAcl (fixtureProvider (some (fixtureClient (.ok nilNoteThread)))
        ("alice", none) 7) (fixtureEvent "mallory")).1 = .ok (b, none) := by
  have hrun : (IsAllowed fixtureAcl (fixtureProvider (some (fixtureClient (.ok nilNoteThread)))
      ("alice", none) 7) (fixtureEvent "mallory")).1 = .error Panic.nilDereference := by
    rfl
  refine ⟨rfl, rfl, ?_, hrun, ?_⟩
  · intro t ht
    simp only [nilNoteThread, List.mem_singleton] at ht
    subst ht
    exact ⟨{ Notes := [none] }, rfl, by simp⟩
  · rintro ⟨b, hb⟩
    rw [hrun] at hb
    cases hb

/-- Claim C1, amended.  With a client, a listing that succeeds and threads that each have a
first note to read (the thread is not nil and its note list starts with a note that is not
nil), `IsAllowed` returns `(b, nil)`, and `b` is true exactly when the actor (the provider
user ID with the sender name of the event) is allowed, or some thread has a first note
that matches the ok-to-test marker and whose author is allowed.  Only first notes enter
the condition: a listing with the same first notes gives the same result. -/
theorem C1_IsAllowed_decision (acl : Acl) (v : Provider) (client : Client) (event : Event)
    (ds : List (Option Discussion))
    (hc : v.Client = some client)
    (hl : client.ListMergeRequestDiscussions v.targetProjectID v.mergeRequestID = .ok ds)
    (hne : ∀ t ∈ ds, hasFirstNote t) :
    (∃ b, (IsAllowed acl v event).1 = .ok (b, none) ∧
      (b = true ↔ (specAllowed acl v client event v.userID event.Sender ∨
        ∃ t ∈ ds, specThreadGrants acl v client event t))) ∧
    (∀ ds2 : List (Option Discussion), ds2.map topNote = ds.map topNote →
      (IsAllowed acl (withDiscussions v client ds2) event).1 = (IsAllowed acl v event).1) := by
  have main : ∀ (w : Provider) (c : Client) (l : List (Option Discussion)),
      w.Client = some c →
      c.ListMergeRequestDiscussions w.targetProjectID w.mergeRequestID = .ok l →
      (∀ t ∈ l, hasFirstNote t) →
      ∃ b, (IsAllowed acl w event).1 = .ok (b, none) ∧
        (b = true ↔ (specAllowed acl w c event w.userID event.Sender ∨
          ∃ t ∈ l, specThreadGrants acl w c event t)) := by
    intro w c l hwc hwl hwne
    obtain ⟨a, ha, haiff⟩ := checkMembership_spec acl w c event w.userID hwc
    obtain ⟨s, hs, hsiff⟩ := scanDiscussions_spec acl w c event hwc l hwne
    cases hres : checkMembership acl w event w.userID with
    | mk r calls =>
      rw [hres] at ha
      simp only at ha
      subst ha
      cases a with
      | true =>
        exact ⟨true, by simp [IsAllowed, hwc, hres], by simp [haiff.mp rfl]⟩
      | false =>
        refine ⟨s, ?_, ?_⟩
        · simp [IsAllowed, hwc, hres, checkOkToTestCommentFromApprovedMember, hwl, hs]
        · rw [hsiff]
          have hna : ¬ specAllowed acl w c event w.userID event.Sender := fun h =>
            absurd (haiff.mpr h) (by simp)
          simp [hna]
  refine ⟨main v client ds hc hl hne, ?_⟩
  intro ds2 hmap
  have hne2 : ∀ t ∈ ds2, hasFirstNote t := by
    intro t ht
    have hmem : topNote t ∈ ds2.map topNote := List.mem_map.mpr ⟨t, ht, rfl⟩
    rw [hmap] at hmem
    obtain ⟨x, hx, hhead⟩ := List.mem_map.mp hmem
    obtain ⟨first, hfirst⟩ := (hasFirstNote_iff_topNote x).mp (hne x hx)
    exact (hasFirstNote_iff_topNote t).mpr ⟨first, by rw [← hhead, hfirst]⟩
  obtain ⟨b, hb, hbiff⟩ := main v client ds hc hl hne
  obtain ⟨b2, hb2, hb2iff⟩ := main (withDiscussions v client ds2)
    { client with ListMergeRequestDiscussions := fun _ _ => .ok ds2 } ds2 rfl rfl hne2
  have hgrants : ∀ t, specThreadGrants acl (withDiscussions v client ds2)
      { client with ListMergeRequestDiscussions := fun _ _ => .ok ds2 } event t ↔
      specThreadGrants acl v client event t := fun _ => Iff.rfl
  have hiff : b2 = true ↔ b = true := by
    rw [hb2iff, hbiff]
    simp only [hgrants]
    rw [exists_specThreadGrants_congr acl v client event ds ds2 hmap]
    exact Iff.rfl
  have hbb : b2 = b := by
    cases b <;> cases b2 <;> simp_all
  rw [hb, hb2, hbb]

/-- Claim C1, amended, at a concrete input: the actor mallory is denied, the first thread is
an ok-to-test by mallory (denied), the second an ok-to-test by the owner alice. -/
theorem C1_IsAllowed_decision_witness :
    ((fixtureProvider (some (fixtureClient (.ok fixtureThreads))) ("alice", none) 7).Client
        = some (fixtureClient (.ok fixtureThreads)) ∧
      (fixtureClient (.ok fixtureThreads)).ListMergeRequestDiscussions 10 3 = .ok fixtureThreads ∧
      (∀ t ∈ fixtureThreads, hasFirstNote t)) ∧
    (IsAllowed fixtureAcl (fixtureProvider (some (fixtureClient (.ok fixtureThreads)))
        ("alice", none) 7) (fixtureEvent "mallory")).1 = .ok (true, none) ∧
    (∃ b, (IsAllowed fixtureAcl
        (fixtureProvider (some (fixtureClient (.ok fixtureThreads))) ("alice", none) 7)
        (fixtureEvent "mallory")).1 = .ok (b, none) ∧
      (b = true ↔ (specAllowed fixtureAcl
          (fixtureProvider (some (fixtureClient (.ok fixtureThreads))) ("alice", none) 7)
          (fixtureClient (.ok fixtureThreads)) (fixtureEvent "mallory") 7 "mallory" ∨
        ∃ t ∈ fixtureThreads, specThreadGrants fixtureAcl
          (fixtureProvider (some (fixtureClient (.ok fixtureThreads))) ("alice", none) 7)
          (fixtureClient (.ok fixtureThreads)) (fixtureEvent "mallory") t))) :=
  ⟨⟨rfl, rfl, by simp [fixtureThreads, hasFirstNote]⟩, by rfl,
    (C1_IsAllowed_decision fixtureAcl
      (fixtureProvider (some (fixtureClient (.ok fixtureThreads))) ("alice", none) 7)
      (fixtureClient (.ok fixtureThreads)) (fixtureEvent "mallory") fixtureThreads
      rfl rfl (by simp [fixtureThreads, hasFirstNote])).1⟩

/-- Claim C4.  When the client of the provider is nil, `IsAllowed` returns `false` with a
non-nil configuration error and makes no call at all: no membership lookup, no owner-file
fetch or parse, no discussion listing. -/
theorem C4_IsAllowed_nil_client (acl : Acl) (v : Provider) (event : Event)
    (hc : v.Client = none) :
    ∃ err, (IsAllowed acl v event).1 = .ok (false, some err) ∧
      (IsAllowed acl v event).2 = [] := by
  refine ⟨noClientError, ?_, ?_⟩ <;> simp [IsAllowed, hc]

/-- Claim C4 at a concrete input: a provider without client. -/
theorem C4_IsAllowed_nil_client_witness :
    (fixtureProvider none ("alice", none) 1).Client = none ∧
    ∃ err, (IsAllowed fixtureAcl (fixtureProvider none ("alice", none) 1)
        (fixtureEvent "alice")).1 = .ok (false, some err) ∧
      (IsAllowed fixtureAcl (fixtureProvider none ("alice", none) 1) (fixtureEvent "alice")).2
        = [] :=
  ⟨rfl, C4_IsAllowed_nil_client fixtureAcl (fixtureProvider none ("alice", none) 1)
    (fixtureEvent "alice") rfl⟩

end Gitlab

namespace Gitlab

/-- Claim C6 fails as stated: a fetch that returns an error together with the content
`alice` lets the sender alice through, and so does a parse that returns an error
together with `true`; in both cases `isAllowedFromOwnerFile` returns `true`. -/
theorem C6_counterexample :
    ((fixtureProvider none ("alice", some "500") 1).getObject "OWNERS" "main" 10
        = ("alice", some "500") ∧
      (isAllowedFromOwnerFile fixtureAcl (fixtureProvider none ("alice", some "500") 1)
        (fixtureEvent "alice")).1 = true) ∧
    (tolerantAcl.UserInOwnerFile "alice" "alice" = (true, some "trailing data") ∧
      (isAllowedFromOwnerFile tolerantAcl (fixtureProvider none ("alice", none) 1)
        (fixtureEvent "alice")).1 = true) := by
  refine ⟨⟨rfl, ?_⟩, ⟨?_, ?_⟩⟩ <;> decide

/-- Claim C6, amended.  For every event and every outcome of the `OWNERS` fetch and of the
owner-file parse: `isAllowedFromOwnerFile` returns `false` when the fetched content is
empty, with or without a fetch error, and when the boolean of the parse is `false`, with
or without a parse error; it returns `true` exactly when the fetched content is not empty
and the boolean of the parse is `true`.  Both errors are discarded: the result is a bare
boolean and no error is propagated. -/
theorem C6_isAllowedFromOwnerFile_denies (acl : Acl) (v : Provider) (event : Event) :
    (∀ fetchErr : Option Error,
      v.getObject "OWNERS" event.DefaultBranch v.targetProjectID = ("", fetchErr) →
      (isAllowedFromOwnerFile acl v event).1 = false) ∧
    (∀ (content : String) (fetchErr parseErr : Option Error),
      v.getObject "OWNERS" event.DefaultBranch v.targetProjectID = (content, fetchErr) →
      acl.UserInOwnerFile content event.Sender = (false, parseErr) →
      (isAllowedFromOwnerFile acl v event).1 = false) ∧
    ((isAllowedFromOwnerFile acl v event).1 = true ↔
      ((v.getObject "OWNERS" event.DefaultBranch v.targetProjectID).1 ≠ "" ∧
        (acl.UserInOwnerFile (v.getObject "OWNERS" event.DefaultBranch v.targetProjectID).1
          event.Sender).1 = true)) := by
  refine ⟨?_, ?_, isAllowedFromOwnerFile_eq_true_iff acl v event⟩
  · intro fetchErr hf
    simp [isAllowedFromOwnerFile, hf]
  · intro content fetchErr parseErr hf hp
    by_cases hc : content = ""
    · simp [isAllowedFromOwnerFile, hf, hc]
    · simp [isAllowedFromOwnerFile, hf, hc, hp]

/-- Claim C6, amended, at concrete inputs: a failing fetch without content, an empty file,
and a content that does not parse. -/
theorem C6_isAllowedFromOwnerFile_denies_witness :
    (isAllowedFromOwnerFile fixtureAcl (fixtureProvider none ("", some "500") 1)
        (fixtureEvent "alice")).1 = false ∧
    (isAllowedFromOwnerFile fixtureAcl (fixtureProvider none ("", none) 1)
        (fixtureEvent "alice")).1 = false ∧
    (isAllowedFromOwnerFile fixtureAcl (fixtureProvider none ("%", none) 1)
        (fixtureEvent "alice")).1 = false :=
  ⟨(C6_isAllowedFromOwnerFile_denies fixtureAcl (fixtureProvider none ("", some "500") 1)
      (fixtureEvent "alice")).1 (some "500") rfl,
   (C6_isAllowedFromOwnerFile_denies fixtureAcl (fixtureProvider none ("", none) 1)
      (fixtureEvent "alice")).1 none rfl,
   (C6_isAllowedFromOwnerFile_denies fixtureAcl (fixtureProvider none ("%", none) 1)
      (fixtureEvent "alice")).2.1 "%" none (some "cannot unmarshal") rfl rfl⟩

/-- The only panic of `checkMembership` is the nil client. -/
theorem checkMembership_no_index_panic (acl : Acl) (v : Provider) (event : Event)
    (userid : Int) :
    (checkMembership acl v event userid).1 ≠ .error Panic.indexOutOfRange := by
  unfold checkMembership
  cases v.Client with
  | none => simp
  | some client =>
    simp only
    split <;> simp

/-- When every listed thread has at least one note, the scan never indexes out of range. -/
theorem scanDiscussions_no_index_panic (acl : Acl) (v : Provider) (event : Event)
    (ds : List (Option Discussion)) (hne : ∀ t ∈ ds, hasNote t) :
    (scanDiscussions acl v event ds).1 ≠ .error Panic.indexOutOfRange := by
  induction ds with
  | nil => simp [scanDiscussions]
  | cons t rest ih =>
    have ihr := ih (fun x hx => hne x (List.mem_cons_of_mem _ hx))
    obtain ⟨d, ht, hd⟩ := hne t (List.mem_cons_self _ _)
    subst ht
    cases hn : d.Notes with
    | nil => exact absurd hn hd
    | cons o more =>
      cases o with
      | none => simp [scanDiscussions, hn]
      | some first =>
        by_cases hmatch : acl.MatchRegexp acl.OKToTestCommentRegexp first.Body = true
        · have hcm := checkMembership_no_index_panic acl v (commenterEvent event first.Author)
            first.Author.ID
          cases hres : checkMembership acl v (commenterEvent event first.Author)
              first.Author.ID with
          | mk r calls =>
            rw [hres] at hcm
            simp only at hcm
            cases r with
            | error p =>
              simp only [scanDiscussions, hn, hmatch, hres, if_true]
              intro hp
              cases hp
              exact hcm rfl
            | ok a =>
              cases a with
              | true => simp [scanDiscussions, hn, hmatch, hres]
              | false =>
                simp only [scanDiscussions, hn, hmatch, hres, if_true]
                exact ihr
        · simp only [scanDiscussions, hn, hmatch]
          exact ihr

/-- A scan that went through a prefix without a grant continues with the remainder. -/
theorem scanDiscussions_append (acl : Acl) (v : Provider) (event : Event)
    (pre rest : List (Option Discussion))
    (h : (scanDiscussions acl v event pre).1 = .ok (false, none)) :
    (scanDiscussions acl v event (pre ++ rest)).1 = (scanDiscussions acl v event rest).1 := by
  induction pre with
  | nil => rfl
  | cons t more ih =>
    cases t with
    | none => simp [scanDiscussions] at h
    | some d =>
      cases hn : d.Notes with
      | nil => simp [scanDiscussions, hn] at h
      | cons o tail =>
        cases o with
        | none => simp [scanDiscussions, hn] at h
        | some first =>
          by_cases hmatch : acl.MatchRegexp acl.OKToTestCommentRegexp first.Body = true
          · cases hres : checkMembership acl v (commenterEvent event first.Author)
                first.Author.ID with
            | mk r calls =>
              cases r with
              | error p => simp [scanDiscussions, hn, hmatch, hres] at h
              | ok a =>
                cases a with
                | true => simp [scanDiscussions, hn, hmatch, hres] at h
                | false =>
                  simp only [scanDiscussions, hn, hmatch, hres, List.cons_append, if_true] at h ⊢
                  exact ih h
          · simp only [scanDiscussions, hn, hmatch, List.cons_append] at h ⊢
            exact ih h

/-- Claim C10 fails as stated: the only listed thread has one note, so `Notes[0]` is in
range, but the note is nil, and the scan panics on `topthread.Body` instead of returning
`(b, nil)`. -/
theorem C10_counterexample :
    (∀ t ∈ nilNoteThread, hasNote t) ∧
    (checkOkToTestCommentFromApprovedMember fixtureAcl
        (fixtureProvider (some (fixtureClient (.ok nilNoteThread))) ("alice", none) 7)
        (fixtureEvent "mallory")).1 = .error Panic.nilDereference ∧
    ¬ ∃ b, (checkOkToTestCommentFromApprovedMember fixtureAcl
        (fixtureProvider (some (fixtureClient (.ok nilNoteThread))) ("alice", none) 7)
        (fixtureEvent "mallory")).1 = .ok (b, none) := by
  have hrun : (checkOkToTestCommentFromApprovedMember fixtureAcl
      (fixtureProvider (some (fixtureClient (.ok nilNoteThread))) ("alice", none) 7)
      (fixtureEvent "mallory")).1 = .error Panic.nilDereference := by
    rfl
  refine ⟨?_, hrun, ?_⟩
  · intro t ht
    simp only [nilNoteThread, List.mem_singleton] at ht
    subst ht
    exact ⟨{ Notes := [none] }, rfl, by simp⟩
  · rintro ⟨b, hb⟩
    rw [hrun] at hb
    cases hb

/-- Claim C10, amended.  With a client: when every listed thread has at least one note, the
access to `Notes[0]` is in range throughout (the call does not panic with an index out of
range); when every listed thread moreover has a first note to read (thread and first note
are not nil), the scan completes with `(b, nil)`, for the empty listing too.  The
precondition on the notes is needed: a thread without notes that the scan reaches makes
the access out of range, and the call panics instead of returning. -/
theorem C10_first_note_in_range (acl : Acl) (v : Provider) (client : Client) (event : Event)
    (hc : v.Client = some client) :
    (∀ ds, client.ListMergeRequestDiscussions v.targetProjectID v.mergeRequestID = .ok ds →
      (∀ t ∈ ds, hasNote t) →
      (checkOkToTestCommentFromApprovedMember acl v event).1
        ≠ .error Panic.indexOutOfRange) ∧
    (∀ ds, client.ListMergeRequestDiscussions v.targetProjectID v.mergeRequestID = .ok ds →
      (∀ t ∈ ds, hasFirstNote t) →
      ∃ b, (checkOkToTestCommentFromApprovedMember acl v event).1 = .ok (b, none)) ∧
    (∀ pre suf,
      client.ListMergeRequestDiscussions v.targetProjectID v.mergeRequestID
        = .ok (pre ++ some { Notes := [] } :: suf) →
      (∀ t ∈ pre, hasFirstNote t) →
      (¬ ∃ t ∈ pre, specThreadGrants acl v client event t) →
      (checkOkToTestCommentFromApprovedMember acl v event).1
        = .error Panic.indexOutOfRange) := by
  refine ⟨?_, ?_, ?_⟩
  · intro ds hl hne
    have hs := scanDiscussions_no_index_panic acl v event ds hne
    simpa [checkOkToTestCommentFromApprovedMember, hc, hl] using hs
  · intro ds hl hne
    obtain ⟨b, hb, _⟩ := scanDiscussions_spec acl v client event hc ds hne
    exact ⟨b, by simp [checkOkToTestCommentFromApprovedMember, hc, hl, hb]⟩
  · intro pre suf hl hne hno
    obtain ⟨b, hb, hiff⟩ := scanDiscussions_spec acl v client event hc pre hne
    have hbf : b = false := by
      cases b with
      | false => rfl
      | true => exact absurd (hiff.mp rfl) hno
    subst hbf
    have happ := scanDiscussions_append acl v event pre (some { Notes := [] } :: suf) hb
    simp [checkOkToTestCommentFromApprovedMember, hc, hl, happ, scanDiscussions]

/-- Claim C10, amended, at concrete inputs: the two-thread listing stays in range and
completes; a listing whose only thread has no note panics with an index out of range. -/
theorem C10_first_note_in_range_witness :
    (checkOkToTestCommentFromApprovedMember fixtureAcl
        (fixtureProvider (some (fixtureClient (.ok fixtureThreads))) ("alice", none) 7)
        (fixtureEvent "mallory")).1 ≠ .error Panic.indexOutOfRange ∧
    (∃ b, (checkOkToTestCommentFromApprovedMember fixtureAcl
        (fixtureProvider (some (fixtureClient (.ok fixtureThreads))) ("alice", none) 7)
        (fixtureEvent "mallory")).1 = .ok (b, none)) ∧
    (checkOkToTestCommentFromApprovedMember fixtureAcl
        (fixtureProvider (some (fixtureClient (.ok emptyThread))) ("alice", none) 7)
        (fixtureEvent "mallory")).1 = .error Panic.indexOutOfRange :=
  ⟨(C10_first_note_in_range fixtureAcl
      (fixtureProvider (some (fixtureClient (.ok fixtureThreads))) ("alice", none) 7)
      (fixtureClient (.ok fixtureThreads)) (fixtureEvent "mallory") rfl).1
      fixtureThreads rfl (by simp [fixtureThreads, hasNote]),
   (C10_first_note_in_range fixtureAcl
      (fixtureProvider (some (fixtureClient (.ok fixtureThreads))) ("alice", none) 7)
      (fixtureClient (.ok fixtureThreads)) (fixtureEvent "mallory") rfl).2.1
      fixtureThreads rfl (by simp [fixtureThreads, hasFirstNote]),
   (C10_first_note_in_range fixtureAcl
      (fixtureProvider (some (fixtureClient (.ok emptyThread))) ("alice", none) 7)
      (fixtureClient (.ok emptyThread)) (fixtureEvent "mallory") rfl).2.2
      [] [] rfl (by simp) (by simp)⟩

end Gitlab

namespace Gitlab

/-- The scan never returns an error: whatever it returns has a nil error. -/
theorem scanDiscussions_error_none (acl : Acl) (v : Provider) (event : Event)
    (ds : List (Option Discussion)) (r : Bool × Option Error)
    (h : (scanDiscussions acl v event ds).1 = .ok r) : r.2 = none := by
  induction ds with
  | nil =>
    simp [scanDiscussions] at h
    subst h
    rfl
  | cons t more ih =>
    cases t with
    | none => simp [scanDiscussions] at h
    | some d =>
      cases hn : d.Notes with
      | nil => simp [scanDiscussions, hn] at h
      | cons o tail =>
        cases o with
        | none => simp [scanDiscussions, hn] at h
        | some first =>
          by_cases hmatch : acl.MatchRegexp acl.OKToTestCommentRegexp first.Body = true
          · cases hres : checkMembership acl v (commenterEvent event first.Author)
                first.Author.ID with
            | mk res calls =>
              cases res with
              | error p => simp [scanDiscussions, hn, hmatch, hres] at h
              | ok a =>
                cases a with
                | true =>
                  simp [scanDiscussions, hn, hmatch, hres] at h
                  subst h
                  rfl
                | false =>
                  simp only [scanDiscussions, hn, hmatch, hres, if_true] at h
                  exact ih h
          · simp only [scanDiscussions, hn, hmatch] at h
            exact ih h

/-- What `IsAllowed` returns next to a non-nil error is `false`. -/
theorem IsAllowed_error_false (acl : Acl) (v : Provider) (event : Event) (b : Bool) (e : Error)
    (h : (IsAllowed acl v event).1 = .ok (b, some e)) : b = false := by
  cases hc : v.Client with
  | none =>
    simp [IsAllowed, hc] at h
    exact h.1
  | some client =>
    cases hres : checkMembership acl v event v.userID with
    | mk res calls =>
      cases res with
      | error p => simp [IsAllowed, hc, hres] at h
      | ok a =>
        cases a with
        | true => simp [IsAllowed, hc, hres] at h
        | false =>
          cases hl : client.ListMergeRequestDiscussions v.targetProjectID v.mergeRequestID with
          | error err =>
            simp [IsAllowed, hc, hres, checkOkToTestCommentFromApprovedMember, hl] at h
            exact h.1
          | ok ds =>
            simp only [IsAllowed, hc, hres, checkOkToTestCommentFromApprovedMember, hl,
              Option.isNone_some, Bool.false_eq_true, if_false] at h
            have := scanDiscussions_error_none acl v event ds (b, some e) h
            simp at this

/-- Claim C5 fails as stated: the actor is denied and the listing succeeds with one thread
that has no note, so no thread grants access, and `IsAllowed` panics on `Notes[0]` instead
of returning `(false, nil)`; with one thread whose only note is nil it panics on
`topthread.Body`. -/
theorem C5_counterexample :
    (fixtureProvider (some (fixtureClient (.ok emptyThread))) ("alice", none) 7).Client
      = some (fixtureClient (.ok emptyThread)) ∧
    ¬ specAllowed fixtureAcl
        (fixtureProvider (some (fixtureClient (.ok emptyThread))) ("alice", none) 7)
        (fixtureClient (.ok emptyThread)) (fixtureEvent "mallory") 7 "mallory" ∧
    (fixtureClient (.ok emptyThread)).ListMergeRequestDiscussions 10 3 = .ok emptyThread ∧
    (¬ ∃ t ∈ emptyThread, specThreadGrants fixtureAcl
        (fixtureProvider (some (fixtureClient (.ok emptyThread))) ("alice", none) 7)
        (fixtureClient (.ok emptyThread)) (fixtureEvent "mallory") t) ∧
    (IsAllowed fixtureAcl
        (fixtureProvider (some (fixtureClient (.ok emptyThread))) ("alice", none) 7)
        (fixtureEvent "mallory")).1 = .error Panic.indexOutOfRange ∧
    (¬ ∃ t ∈ nilNoteThread, specThreadGrants fixtureAcl
        (fixtureProvider (some (fixtureClient (.ok nilNoteThread))) ("alice", none) 7)
        (fixtureClient (.ok nilNoteThread)) (fixtureEvent "mallory") t) ∧
    (IsAllowed fixtureAcl
        (fixtureProvider (some (fixtureClient (.ok nilNoteThread))) ("alice", none) 7)
        (fixtureEvent "mallory")).1 = .error Panic.nilDereference := by
  refine ⟨rfl, ?_, rfl, ?_, rfl, ?_, rfl⟩
  · simp [specAllowed, fixtureProvider, fixtureClient, fixtureAcl, fixtureEvent]
  · simp [specThreadGrants, emptyThread, topNote]
  · simp [specThreadGrants, nilNoteThread, topNote]

/-- Claim C5, amended.  With a client and an actor denied by the membership check and by the
owner-file check: if the discussion listing fails with `e`, `IsAllowed` returns
`(false, e)`; if the listing succeeds with threads that each have a first note to read
(thread and first note are not nil) and no thread grants access, it returns
`(false, nil)`.  And for every provider and event, what `IsAllowed` returns together with
a non-nil error is `false`. -/
theorem C5_IsAllowed_denied_or_error (acl : Acl) (v : Provider) (event : Event) :
    (∀ client, v.Client = some client →
      ¬ specAllowed acl v client event v.userID event.Sender →
      (∀ e, client.ListMergeRequestDiscussions v.targetProjectID v.mergeRequestID = .error e →
        (IsAllowed acl v event).1 = .ok (false, some e)) ∧
      (∀ ds, client.ListMergeRequestDiscussions v.targetProjectID v.mergeRequestID = .ok ds →
        (∀ t ∈ ds, hasFirstNote t) →
        (¬ ∃ t ∈ ds, specThreadGrants acl v client event t) →
        (IsAllowed acl v event).1 = .ok (false, none))) ∧
    (∀ b e, (IsAllowed acl v event).1 = .ok (b, some e) → b = false) := by
  refine ⟨?_, fun b e h => IsAllowed_error_false acl v event b e h⟩
  intro client hc hdenied
  obtain ⟨a, ha, haiff⟩ := checkMembership_spec acl v client event v.userID hc
  have haf : a = false := by
    cases a with
    | false => rfl
    | true => exact absurd (haiff.mp rfl) hdenied
  subst haf
  cases hres : checkMembership acl v event v.userID with
  | mk res calls =>
    rw [hres] at ha
    simp only at ha
    subst ha
    constructor
    · intro e hl
      simp [IsAllowed, hc, hres, checkOkToTestCommentFromApprovedMember, hl]
    · intro ds hl hne hno
      obtain ⟨b, hb, hiff⟩ := scanDiscussions_spec acl v client event hc ds hne
      have hbf : b = false := by
        cases b with
        | false => rfl
        | true => exact absurd (hiff.mp rfl) hno
      subst hbf
      simp [IsAllowed, hc, hres, checkOkToTestCommentFromApprovedMember, hl, hb]

/-- Claim C5, amended, at concrete inputs: the outsider mallory with a failing listing, and
with a listing whose only thread is her own ok-to-test. -/
theorem C5_IsAllowed_denied_or_error_witness :
    (IsAllowed fixtureAcl (fixtureProvider (some (fixtureClient (.error "502"))) ("alice", none) 7)
        (fixtureEvent "mallory")).1 = .ok (false, some "502") ∧
    (IsAllowed fixtureAcl
        (fixtureProvider (some (fixtureClient
          (.ok [some { Notes := [some (fixtureNote "/ok-to-test" 7 "mallory")] }])))
          ("alice", none) 7)
        (fixtureEvent "mallory")).1 = .ok (false, none) :=
  ⟨((C5_IsAllowed_denied_or_error fixtureAcl
      (fixtureProvider (some (fixtureClient (.error "502"))) ("alice", none) 7)
      (fixtureEvent "mallory")).1 (fixtureClient (.error "502")) rfl
      (by simp [specAllowed, fixtureProvider, fixtureClient, fixtureAcl, fixtureEvent])).1
      "502" rfl,
   ((C5_IsAllowed_denied_or_error fixtureAcl
      (fixtureProvider (some (fixtureClient
        (.ok [some { Notes := [some (fixtureNote "/ok-to-test" 7 "mallory")] }])))
        ("alice", none) 7)
      (fixtureEvent "mallory")).1
      (fixtureClient (.ok [some { Notes := [some (fixtureNote "/ok-to-test" 7 "mallory")] }]))
      rfl
      (by simp [specAllowed, fixtureProvider, fixtureClient, fixtureAcl, fixtureEvent])).2
      [some { Notes := [some (fixtureNote "/ok-to-test" 7 "mallory")] }] rfl
      (by simp [hasFirstNote])
      (by simp [specThreadGrants, specAllowed, topNote, fixtureProvider, fixtureClient,
        fixtureAcl, fixtureEvent, fixtureNote])⟩

end Gitlab

namespace Gitlab

/-- The calls of `checkMembership`: the membership lookup is made for `userid`, the
owner-file parse for `event.Sender`. -/
theorem checkMembership_calls (acl : Acl) (v : Provider) (event : Event) (userid : Int) :
    (∀ pid uid, Call.GetInheritedProjectMember pid uid ∈ (checkMembership acl v event userid).2 →
      uid = userid) ∧
    (∀ content s, Call.UserInOwnerFile content s ∈ (checkMembership acl v event userid).2 →
      s = event.Sender) := by
  unfold checkMembership
  cases v.Client with
  | none => simp
  | some client =>
    simp only
    split
    · simp
    · unfold isAllowedFromOwnerFile
      simp only
      split <;> simp

/-- The calls of the scan: every membership lookup is for the author ID of the first note
of a thread, every owner-file parse for the author username of the first note of a thread,
the note matching the marker in both cases. -/
theorem scanDiscussions_calls (acl : Acl) (v : Provider) (event : Event)
    (ds : List (Option Discussion)) :
    (∀ pid uid, Call.GetInheritedProjectMember pid uid ∈ (scanDiscussions acl v event ds).2 →
      ∃ d, some d ∈ ds ∧ ∃ first rest, d.Notes = some first :: rest ∧
        acl.MatchRegexp acl.OKToTestCommentRegexp first.Body = true ∧ uid = first.Author.ID) ∧
    (∀ content s, Call.UserInOwnerFile content s ∈ (scanDiscussions acl v event ds).2 →
      ∃ d, some d ∈ ds ∧ ∃ first rest, d.Notes = some first :: rest ∧
        acl.MatchRegexp acl.OKToTestCommentRegexp first.Body = true ∧
        s = first.Author.Username) := by
  induction ds with
  | nil => simp [scanDiscussions]
  | cons t more ih =>
    have lift1 : ∀ uid, (∃ x, some x ∈ more ∧ ∃ first rest, x.Notes = some first :: rest ∧
        acl.MatchRegexp acl.OKToTestCommentRegexp first.Body = true ∧ uid = first.Author.ID) →
        ∃ x, some x ∈ t :: more ∧ ∃ first rest, x.Notes = some first :: rest ∧
        acl.MatchRegexp acl.OKToTestCommentRegexp first.Body = true ∧ uid = first.Author.ID :=
      fun _ ⟨x, hx, h⟩ => ⟨x, List.mem_cons_of_mem _ hx, h⟩
    have lift2 : ∀ s : String, (∃ x, some x ∈ more ∧ ∃ first rest,
        x.Notes = some first :: rest ∧
        acl.MatchRegexp acl.OKToTestCommentRegexp first.Body = true ∧
        s = first.Author.Username) →
        ∃ x, some x ∈ t :: more ∧ ∃ first rest, x.Notes = some first :: rest ∧
        acl.MatchRegexp acl.OKToTestCommentRegexp first.Body = true ∧
        s = first.Author.Username :=
      fun _ ⟨x, hx, h⟩ => ⟨x, List.mem_cons_of_mem _ hx, h⟩
    cases t with
    | none => simp [scanDiscussions]
    | some d =>
      cases hn : d.Notes with
      | nil => simp [scanDiscussions, hn]
      | cons o tail =>
        cases o with
        | none => simp [scanDiscussions, hn]
        | some first =>
          by_cases hmatch : acl.MatchRegexp acl.OKToTestCommentRegexp first.Body = true
          · have hcm := checkMembership_calls acl v (commenterEvent event first.Author)
              first.Author.ID
            have here1 : ∀ pid uid, Call.GetInheritedProjectMember pid uid ∈
                (checkMembership acl v (commenterEvent event first.Author) first.Author.ID).2 →
                ∃ x, some x ∈ some d :: more ∧ ∃ f rest, x.Notes = some f :: rest ∧
                  acl.MatchRegexp acl.OKToTestCommentRegexp f.Body = true ∧
                  uid = f.Author.ID :=
              fun pid uid h =>
                ⟨d, List.mem_cons_self _ _, first, tail, hn, hmatch, hcm.1 pid uid h⟩
            have here2 : ∀ content s, Call.UserInOwnerFile content s ∈
                (checkMembership acl v (commenterEvent event first.Author) first.Author.ID).2 →
                ∃ x, some x ∈ some d :: more ∧ ∃ f rest, x.Notes = some f :: rest ∧
                  acl.MatchRegexp acl.OKToTestCommentRegexp f.Body = true ∧
                  s = f.Author.Username :=
              fun content s h =>
                ⟨d, List.mem_cons_self _ _, first, tail, hn, hmatch, hcm.2 content s h⟩
            cases hres : checkMembership acl v (commenterEvent event first.Author)
                first.Author.ID with
            | mk res calls =>
              rw [hres] at here1 here2
              simp only at here1 here2
              cases res with
              | error p =>
                simp only [scanDiscussions, hn, hmatch, hres, if_true]
                exact ⟨here1, here2⟩
              | ok a =>
                cases a with
                | true =>
                  simp only [scanDiscussions, hn, hmatch, hres, if_true]
                  exact ⟨here1, here2⟩
                | false =>
                  simp only [scanDiscussions, hn, hmatch, hres, if_true, List.mem_append]
                  constructor
                  · intro pid uid h
                    rcases h with h | h
                    · exact here1 pid uid h
                    · exact lift1 uid (ih.1 pid uid h)
                  · intro content s h
                    rcases h with h | h
                    · exact here2 content s h
                    · exact lift2 s (ih.2 content s h)
          · simp only [scanDiscussions, hn, hmatch]
            exact ⟨fun pid uid h => lift1 uid (ih.1 pid uid h),
              fun content s h => lift2 s (ih.2 content s h)⟩

/-- The scan does not read the sender of the event nor the user ID of the provider. -/
theorem scanDiscussions_sender_userID (acl : Acl) (v : Provider) (event : Event)
    (sender : String) (userID : Int) (ds : List (Option Discussion)) :
    scanDiscussions acl { v with userID := userID } { event with Sender := sender } ds =
      scanDiscussions acl v event ds := by
  induction ds with
  | nil => rfl
  | cons t more ih =>
    cases t with
    | none => rfl
    | some d =>
      cases hn : d.Notes with
      | nil => simp [scanDiscussions, hn]
      | cons o tail =>
        cases o with
        | none => simp [scanDiscussions, hn]
        | some first =>
          have hcm : checkMembership acl { v with userID := userID }
              (commenterEvent { event with Sender := sender } first.Author) first.Author.ID =
              checkMembership acl v (commenterEvent event first.Author) first.Author.ID := rfl
          simp only [scanDiscussions, hn, hcm, ih]

/-- Claim C7.  The ok-to-test scan decides on the identity of the commenter only: changing
the sender of the event and the user ID of the provider, with the same threads and the
same remote answers, leaves the result and the calls of
`checkOkToTestCommentFromApprovedMember` unchanged; every membership lookup it makes is
for the author ID of the first note of a thread that matches the marker, and every
owner-file parse is for the author username of such a first note. -/
theorem C7_scan_uses_commenter_identity (acl : Acl) (v : Provider) (event : Event)
    (sender : String) (userID : Int) :
    checkOkToTestCommentFromApprovedMember acl { v with userID := userID }
        { event with Sender := sender } =
      checkOkToTestCommentFromApprovedMember acl v event ∧
    (∀ client ds, v.Client = some client →
      client.ListMergeRequestDiscussions v.targetProjectID v.mergeRequestID = .ok ds →
      (∀ pid uid, Call.GetInheritedProjectMember pid uid ∈
          (checkOkToTestCommentFromApprovedMember acl v event).2 →
        ∃ d, some d ∈ ds ∧ ∃ first rest, d.Notes = some first :: rest ∧
          acl.MatchRegexp acl.OKToTestCommentRegexp first.Body = true ∧
          uid = first.Author.ID) ∧
      (∀ content s, Call.UserInOwnerFile content s ∈
          (checkOkToTestCommentFromApprovedMember acl v event).2 →
        ∃ d, some d ∈ ds ∧ ∃ first rest, d.Notes = some first :: rest ∧
          acl.MatchRegexp acl.OKToTestCommentRegexp first.Body = true ∧
          s = first.Author.Username)) := by
  constructor
  · obtain ⟨c, pid, mr, uid, go⟩ := v
    cases c with
    | none => rfl
    | some client =>
      have key := scanDiscussions_sender_userID acl ⟨some client, pid, mr, uid, go⟩ event
        sender userID
      cases hl : client.ListMergeRequestDiscussions pid mr with
      | error e => simp [checkOkToTestCommentFromApprovedMember, hl]
      | ok ds =>
        simp only [checkOkToTestCommentFromApprovedMember, hl]
        exact congrArg (fun r => (r.1, Call.ListMergeRequestDiscussions pid mr :: r.2)) (key ds)
  · intro client ds hc hl
    have hs := scanDiscussions_calls acl v event ds
    simp only [checkOkToTestCommentFromApprovedMember, hc, hl, List.mem_cons]
    constructor
    · intro pid uid h
      rcases h with h | h
      · cases h
      · exact hs.1 pid uid h
    · intro content s h
      rcases h with h | h
      · cases h
      · exact hs.2 content s h

/-- Claim C7 at a concrete input: the scan of the two fixture threads for the sender
mallory and user 7 equals the scan for the sender alice and user 1, and its owner-file
parses are for the commenters. -/
theorem C7_scan_uses_commenter_identity_witness :
    checkOkToTestCommentFromApprovedMember fixtureAcl
        { fixtureProvider (some (fixtureClient (.ok fixtureThreads))) ("alice", none) 7 with
          userID := 1 }
        { fixtureEvent "mallory" with Sender := "alice" } =
      checkOkToTestCommentFromApprovedMember fixtureAcl
        (fixtureProvider (some (fixtureClient (.ok fixtureThreads))) ("alice", none) 7)
        (fixtureEvent "mallory") ∧
    (∀ content s, Call.UserInOwnerFile content s ∈
        (checkOkToTestCommentFromApprovedMember fixtureAcl
          (fixtureProvider (some (fixtureClient (.ok fixtureThreads))) ("alice", none) 7)
          (fixtureEvent "mallory")).2 →
      ∃ d, some d ∈ fixtureThreads ∧ ∃ first rest, d.Notes = some first :: rest ∧
        fixtureAcl.MatchRegexp fixtureAcl.OKToTestCommentRegexp first.Body = true ∧
        s = first.Author.Username) :=
  ⟨(C7_scan_uses_commenter_identity fixtureAcl
      (fixtureProvider (some (fixtureClient (.ok fixtureThreads))) ("alice", none) 7)
      (fixtureEvent "mallory") "alice" 1).1,
   ((C7_scan_uses_commenter_identity fixtureAcl
      (fixtureProvider (some (fixtureClient (.ok fixtureThreads))) ("alice", none) 7)
      (fixtureEvent "mallory") "alice" 1).2 (fixtureClient (.ok fixtureThreads))
      fixtureThreads rfl rfl).2⟩

end Gitlab

/-! ## Facts about the reconciler filter -/

namespace Reconciler

/-- The two-valued map read finds the key exactly when the labels hold it. -/
theorem get_ne_none_iff_hasLabelKey (m : Labels) (k : String) :
    m.get k ≠ none ↔ hasLabelKey m k := by
  have aux : ∀ kvs : List (String × String),
      List.lookup k kvs ≠ none ↔ ∃ value, (k, value) ∈ kvs := by
    intro kvs
    induction kvs with
    | nil => simp
    | cons kv rest ih =>
      obtain ⟨a, b⟩ := kv
      by_cases hk : k = a
      · subst hk
        simp [List.lookup]
      · have hne : (k == a) = false := by simpa using hk
        simp only [List.lookup, hne, List.mem_cons, Prod.mk.injEq, hk, false_and, false_or]
        exact ih
  unfold hasLabelKey Labels.get
  cases m with
  | none => simp
  | some kvs =>
    rw [aux kvs]
    constructor
    · rintro ⟨value, hv⟩
      exact ⟨kvs, value, rfl, hv⟩
    · rintro ⟨l, value, hl, hv⟩
      cases hl
      exact ⟨value, hv⟩

/-- Claim C8.  When the metadata accessor succeeds with `object`, the handler of
`checkStateAndEnqueue` enqueues exactly one key, the namespace and name of `object`, if
the labels of `object` hold the state key, and enqueues nothing if they do not, in
particular when the label map is nil.  `PromoteFilterFunc` accepts a pipeline run under
the same condition. -/
theorem C8_enqueue_iff_state_label (keys : Keys)
    (DeletionHandlingAccessor : Obj → Except Error ObjectMeta) (impl : Impl) (obj : Obj)
    (object : ObjectMeta) (hacc : DeletionHandlingAccessor obj = .ok object) :
    (hasLabelKey object.Labels keys.State →
      (checkStateAndEnqueue keys DeletionHandlingAccessor impl obj).enqueued =
        impl.enqueued ++ [{ Namespace := object.Namespace, Name := object.Name }]) ∧
    (¬ hasLabelKey object.Labels keys.State →
      checkStateAndEnqueue keys DeletionHandlingAccessor impl obj = impl) ∧
    (object.Labels = none →
      checkStateAndEnqueue keys DeletionHandlingAccessor impl obj = impl) ∧
    (∀ pr : PipelineRun,
      (hasLabelKey pr.ObjectMeta.Labels keys.State →
        PromoteFilterFunc keys (.pipelineRun pr) = some true) ∧
      (¬ hasLabelKey pr.ObjectMeta.Labels keys.State →
        PromoteFilterFunc keys (.pipelineRun pr) = some false)) := by
  refine ⟨?_, ?_, ?_, ?_⟩
  · intro h
    rw [← get_ne_none_iff_hasLabelKey] at h
    cases hg : object.Labels.get keys.State with
    | none => exact absurd hg h
    | some value => simp [checkStateAndEnqueue, hacc, hg, Impl.EnqueueKey]
  · intro h
    rw [← get_ne_none_iff_hasLabelKey, not_not] at h
    simp [checkStateAndEnqueue, hacc, h]
  · intro h
    simp [checkStateAndEnqueue, hacc, h, Labels.get]
  · intro pr
    constructor
    · intro h
      rw [← get_ne_none_iff_hasLabelKey] at h
      cases hg : pr.ObjectMeta.Labels.get keys.State with
      | none => exact absurd hg h
      | some value => simp [PromoteFilterFunc, hg]
    · intro h
      rw [← get_ne_none_iff_hasLabelKey, not_not] at h
      simp [PromoteFilterFunc, h]

/-- Claim C8 at concrete inputs: a labelled run is enqueued once under its namespaced
name, a run with a nil label map is not. -/
theorem C8_enqueue_iff_state_label_witness :
    (checkStateAndEnqueue pacKeys kmetaAccessor { enqueued := [] }
        (.pipelineRun queuedRun)).enqueued = [{ Namespace := "foo", Name := "pr-queued" }] ∧
    checkStateAndEnqueue pacKeys kmetaAccessor { enqueued := [] } (.pipelineRun unlabelledRun)
      = { enqueued := [] } :=
  ⟨(C8_enqueue_iff_state_label pacKeys kmetaAccessor { enqueued := [] } (.pipelineRun queuedRun)
      queuedRun.ObjectMeta rfl).1 ⟨[(pacKeys.State, "queued")], "queued", rfl, by simp⟩,
   (C8_enqueue_iff_state_label pacKeys kmetaAccessor { enqueued := [] }
      (.pipelineRun unlabelledRun) unlabelledRun.ObjectMeta rfl).2.2.1 rfl⟩

/-- Claim C9 at the failing input: a pipeline run whose state label is `queued`, not
`started`, is enqueued by the handler. -/
theorem C9_queued_run_is_enqueued :
    queuedRun.ObjectMeta.Labels.get pacKeys.State = some "queued" ∧
    ("queued" : String) ≠ "started" ∧
    (checkStateAndEnqueue pacKeys kmetaAccessor { enqueued := [] }
        (.pipelineRun queuedRun)).enqueued = [{ Namespace := "foo", Name := "pr-queued" }] := by
  refine ⟨by decide, by decide, by decide⟩

end Reconciler

/-! ## Facts about the cancellation resolver -/

namespace PipelineAsCode

/-- Whatever the store answers, each record comes out either untouched or cancelled, and
it is cancelled only if it matched the selector and was not skipped. -/
theorem cancelMatching_frame (update : PipelineRun → Option Error)
    (selector : List (String × String)) (store : List PipelineRun) :
    List.Forall₂ (fun before after => after = before ∨
        (after = cancelled before ∧ matchesSelector selector before = true ∧
          skipped before = false))
      store (cancelMatching update selector store).1 := by
  induction store with
  | nil => exact List.Forall₂.nil
  | cons pr rest ih =>
    have hrefl : List.Forall₂ (fun before after => after = before ∨
        (after = cancelled before ∧ matchesSelector selector before = true ∧
          skipped before = false)) (pr :: rest) (pr :: rest) :=
      List.forall₂_same.mpr (fun _ _ => Or.inl rfl)
    by_cases hsel : (matchesSelector selector pr && !skipped pr) = true
    · cases hup : update (cancelled pr) with
      | some err =>
        simp only [cancelMatching, hsel, hup, if_true]
        exact hrefl
      | none =>
        simp only [cancelMatching, hsel, hup, if_true]
        refine List.Forall₂.cons (Or.inr ⟨rfl, ?_, ?_⟩) ih
        · simp only [Bool.and_eq_true] at hsel
          exact hsel.1
        · simp only [Bool.and_eq_true, Bool.not_eq_true'] at hsel
          exact hsel.2
    · simp only [cancelMatching, hsel]
      exact List.Forall₂.cons (Or.inl rfl) ih

/-- When no error is returned, every record that matched the selector and was not skipped
comes out cancelled, and every other record comes out untouched. -/
theorem cancelMatching_complete (update : PipelineRun → Option Error)
    (selector : List (String × String)) (store : List PipelineRun)
    (herr : (cancelMatching update selector store).2 = none) :
    List.Forall₂ (fun before after =>
        after = if (matchesSelector selector before && !skipped before) = true
          then cancelled before else before)
      store (cancelMatching update selector store).1 := by
  induction store with
  | nil => exact List.Forall₂.nil
  | cons pr rest ih =>
    by_cases hsel : (matchesSelector selector pr && !skipped pr) = true
    · cases hup : update (cancelled pr) with
      | some err => simp [cancelMatching, hsel, hup] at herr
      | none =>
        simp only [cancelMatching, hsel, hup, if_true] at herr ⊢
        exact List.Forall₂.cons (by simp [hsel]) (ih herr)
    · simp only [cancelMatching, hsel] at herr ⊢
      exact List.Forall₂.cons (by simp [hsel]) (ih herr)

/-- Without a matching record nothing is mutated and no error is returned. -/
theorem cancelMatching_no_match (update : PipelineRun → Option Error)
    (selector : List (String × String)) (store : List PipelineRun)
    (hno : ∀ pr ∈ store, matchesSelector selector pr = false) :
    cancelMatching update selector store = (store, none) := by
  induction store with
  | nil => rfl
  | cons pr rest ih =>
    have hpr : matchesSelector selector pr = false := hno pr (List.mem_cons_self _ _)
    have hrest := ih (fun x hx => hno x (List.mem_cons_of_mem _ hx))
    simp [cancelMatching, hpr, hrest]

/-- The selector of an event: the match key of the event, and the original-name label when
a target is given. -/
theorem matchesSelector_labelSelector (keys : Keys) (lv : LabelValues) (event : Event)
    (repo : Repository) (pr : PipelineRun) :
    matchesSelector (labelSelector keys lv event repo) pr = true ↔
      (matchesEvent keys lv event repo pr ∧
        (event.State.TargetCancelPipelineRun ≠ "" →
          pr.ObjectMeta.Labels.get keys.OriginalPRName
            = some event.State.TargetCancelPipelineRun)) := by
  unfold matchesSelector labelSelector matchesEvent
  by_cases ht : event.State.TargetCancelPipelineRun = ""
  · simp [ht, and_assoc]
  · simp [ht, and_assoc]

/-- Claim C2.  For a `pull_request` event with `CancelPipelineRuns` set and no explicit
target, and any existing records: when `cancelPipelineRuns` returns a nil error, each
record keeps its metadata and conditions, each record that carries the repository, SHA
and pull-request-number labels of the event, has no terminal succeeded condition and is
neither `StoppedRunFinally` nor `CancelledRunFinally` ends with
`spec.status = CancelledRunFinally`, and each record that is terminal or
`StoppedRunFinally` keeps its `spec.status`.  With no matching record the call succeeds
and mutates nothing. -/
theorem C2_cancel_all_matching (keys : Keys) (lv : LabelValues)
    (update : PipelineRun → Option Error) (event : Event) (repo : Repository)
    (store : List PipelineRun)
    (hpr : event.TriggerTarget = "pull_request")
    (hcancel : event.State.CancelPipelineRuns = true)
    (htarget : event.State.TargetCancelPipelineRun = "") :
    ((cancelPipelineRuns keys lv update event repo store).2 = none →
      List.Forall₂ (fun before after =>
          after.ObjectMeta = before.ObjectMeta ∧ after.Status = before.Status ∧
          (matchesEvent keys lv event repo before → IsDone before = false →
            before.Spec.Status ≠ PipelineRunSpecStatusStoppedRunFinally →
            before.Spec.Status ≠ PipelineRunSpecStatusCancelledRunFinally →
            after.Spec.Status = PipelineRunSpecStatusCancelledRunFinally) ∧
          (IsDone before = true ∨
              before.Spec.Status = PipelineRunSpecStatusStoppedRunFinally →
            after.Spec.Status = before.Spec.Status))
        store (cancelPipelineRuns keys lv update event repo store).1) ∧
    ((∀ pr ∈ store, ¬ matchesEvent keys lv event repo pr) →
      cancelPipelineRuns keys lv update event repo store = (store, none)) := by
  have hrun : cancelPipelineRuns keys lv update event repo store =
      cancelMatching update (labelSelector keys lv event repo) store := by
    simp [cancelPipelineRuns, hpr, hcancel]
  rw [hrun]
  constructor
  · intro herr
    refine List.Forall₂.imp ?_ (cancelMatching_complete update _ store herr)
    intro before after hafter
    by_cases hsel : (matchesSelector (labelSelector keys lv event repo) before
        && !skipped before) = true
    · rw [if_pos hsel] at hafter
      subst hafter
      refine ⟨rfl, rfl, fun _ _ _ _ => rfl, ?_⟩
      intro hskip
      simp only [Bool.and_eq_true, Bool.not_eq_true'] at hsel
      have hs := hsel.2
      simp only [skipped, Bool.or_eq_false_iff, decide_eq_false_iff_not] at hs
      rcases hskip with hdone | hstopped
      · rw [hdone] at hs
        exact absurd hs.1.1 (by simp)
      · exact absurd hstopped hs.1.2
    · rw [if_neg hsel] at hafter
      subst hafter
      refine ⟨rfl, rfl, ?_, fun _ => rfl⟩
      intro hmatch hdone hstop hcanc
      exfalso
      apply hsel
      have hm : matchesSelector (labelSelector keys lv event repo) after = true :=
        (matchesSelector_labelSelector keys lv event repo after).mpr
          ⟨hmatch, fun h => absurd htarget h⟩
      simp [hm, skipped, hdone, hstop, hcanc]
  · intro hno
    apply cancelMatching_no_match
    intro pr hpr
    cases hm : matchesSelector (labelSelector keys lv event repo) pr with
    | false => rfl
    | true =>
      exact absurd ((matchesSelector_labelSelector keys lv event repo pr).mp hm).1 (hno pr hpr)

/-- Claim C2 at a concrete input: a running record, a succeeded record and a
`StoppedRunFinally` record, all carrying the labels of the event; only the first ends
cancelled. -/
theorem C2_cancel_all_matching_witness :
    ((cancelEvent "").TriggerTarget = "pull_request" ∧
      (cancelEvent "").State.CancelPipelineRuns = true ∧
      (cancelEvent "").State.TargetCancelPipelineRun = "" ∧
      (cancelPipelineRuns pacKeys fixtureLabelValues acceptAll (cancelEvent "") fooRepo
        mixedStore).2 = none) ∧
    (cancelPipelineRuns pacKeys fixtureLabelValues acceptAll (cancelEvent "") fooRepo
        mixedStore).1.map (fun pr => pr.Spec.Status)
      = ["CancelledRunFinally", "", "StoppedRunFinally"] ∧
    List.Forall₂ (fun before after =>
        after.ObjectMeta = before.ObjectMeta ∧ after.Status = before.Status ∧
        (matchesEvent pacKeys fixtureLabelValues (cancelEvent "") fooRepo before →
          IsDone before = false →
          before.Spec.Status ≠ PipelineRunSpecStatusStoppedRunFinally →
          before.Spec.Status ≠ PipelineRunSpecStatusCancelledRunFinally →
          after.Spec.Status = PipelineRunSpecStatusCancelledRunFinally) ∧
        (IsDone before = true ∨
            before.Spec.Status = PipelineRunSpecStatusStoppedRunFinally →
          after.Spec.Status = before.Spec.Status))
      mixedStore
      (cancelPipelineRuns pacKeys fixtureLabelValues acceptAll (cancelEvent "") fooRepo
        mixedStore).1 :=
  ⟨⟨rfl, rfl, rfl, by decide⟩, by decide,
    (C2_cancel_all_matching pacKeys fixtureLabelValues acceptAll (cancelEvent "") fooRepo
      mixedStore rfl rfl rfl).1 (by decide)⟩

end PipelineAsCode

namespace PipelineAsCode

/-- Claim C3.  For a `pull_request` event with `CancelPipelineRuns` set and a non-empty
target `t`, and any existing records, whatever error is returned: a record that
`cancelPipelineRuns` changes is changed by setting `spec.status = CancelledRunFinally`
and its original-name label equals `t`; a record whose original-name label is absent or
different comes out unchanged, even when it carries the repository, SHA and
pull-request-number labels of the event, so it ends with `CancelledRunFinally` only if
it already had it. -/
theorem C3_cancel_only_target (keys : Keys) (lv : LabelValues)
    (update : PipelineRun → Option Error) (event : Event) (repo : Repository)
    (store : List PipelineRun)
    (hpr : event.TriggerTarget = "pull_request")
    (hcancel : event.State.CancelPipelineRuns = true)
    (htarget : event.State.TargetCancelPipelineRun ≠ "") :
    List.Forall₂ (fun before after =>
        (after ≠ before →
          after = cancelled before ∧
          before.ObjectMeta.Labels.get keys.OriginalPRName
            = some event.State.TargetCancelPipelineRun) ∧
        (before.ObjectMeta.Labels.get keys.OriginalPRName
            ≠ some event.State.TargetCancelPipelineRun →
          after = before) ∧
        (before.ObjectMeta.Labels.get keys.OriginalPRName
            ≠ some event.State.TargetCancelPipelineRun →
          after.Spec.Status = PipelineRunSpecStatusCancelledRunFinally →
          before.Spec.Status = PipelineRunSpecStatusCancelledRunFinally))
      store (cancelPipelineRuns keys lv update event repo store).1 := by
  have hrun : cancelPipelineRuns keys lv update event repo store =
      cancelMatching update (labelSelector keys lv event repo) store := by
    simp [cancelPipelineRuns, hpr, hcancel]
  rw [hrun]
  refine List.Forall₂.imp ?_ (cancelMatching_frame update _ store)
  intro before after h
  rcases h with h | ⟨hafter, hsel, _⟩
  · subst h
    exact ⟨fun hne => absurd rfl hne, fun _ => rfl, fun _ hs => hs⟩
  · have hlabel := ((matchesSelector_labelSelector keys lv event repo before).mp hsel).2 htarget
    exact ⟨fun _ => ⟨hafter, hlabel⟩, fun hne => absurd hlabel hne,
      fun hne => absurd hlabel hne⟩

/-- Claim C3 at a concrete input, the test case "cancel a specific run": three records
share the labels of the event, one carries the original name `pr-foo-abc`, and only that
one ends cancelled. -/
theorem C3_cancel_only_target_witness :
    ((cancelEvent "pr-foo-abc").TriggerTarget = "pull_request" ∧
      (cancelEvent "pr-foo-abc").State.CancelPipelineRuns = true ∧
      (cancelEvent "pr-foo-abc").State.TargetCancelPipelineRun ≠ "") ∧
    (cancelPipelineRuns pacKeys fixtureLabelValues acceptAll (cancelEvent "pr-foo-abc") fooRepo
        specificRunStore).1.map (fun pr => (pr.ObjectMeta.Name, pr.Spec.Status))
      = [("pr-foo", ""), ("pr-foo-abc-123", "CancelledRunFinally"), ("pr-foo-pqr", "")] ∧
    List.Forall₂ (fun before after =>
        (after ≠ before →
          after = cancelled before ∧
          before.ObjectMeta.Labels.get pacKeys.OriginalPRName
            = some (cancelEvent "pr-foo-abc").State.TargetCancelPipelineRun) ∧
        (before.ObjectMeta.Labels.get pacKeys.OriginalPRName
            ≠ some (cancelEvent "pr-foo-abc").State.TargetCancelPipelineRun →
          after = before) ∧
        (before.ObjectMeta.Labels.get pacKeys.OriginalPRName
            ≠ some (cancelEvent "pr-foo-abc").State.TargetCancelPipelineRun →
          after.Spec.Status = PipelineRunSpecStatusCancelledRunFinally →
          before.Spec.Status = PipelineRunSpecStatusCancelledRunFinally))
      specificRunStore
      (cancelPipelineRuns pacKeys fixtureLabelValues acceptAll (cancelEvent "pr-foo-abc") fooRepo
        specificRunStore).1 :=
  ⟨⟨rfl, rfl, by decide⟩, by decide,
    C3_cancel_only_target pacKeys fixtureLabelValues acceptAll (cancelEvent "pr-foo-abc") fooRepo
      specificRunStore rfl rfl (by decide)⟩

end PipelineAsCode

end PAC
